import Mathlib

/-!
Verification development for the vertex-remap subsystem of meshopt-rs
(`src/remap.rs`).

The Rust functions in `src/remap.rs` are thin wrappers that compute buffer
sizes and counts and then delegate the scan/copy loops to foreign functions
(`meshopt_generateVertexRemap`, `meshopt_generateVertexRemapMulti`,
`meshopt_remapIndexBuffer`, `meshopt_remapVertexBuffer`) whose bodies are not
part of this repository's sources.  The wrappers below are translated
directly from `remap.rs`; the foreign loop bodies are modelled from the
specification, as indicated by their doc comments.

Modelling conventions:
* a byte is a `Nat` (only equality of bytes matters — records are opaque);
* a value of the Rust type parameter `T` is its byte image, a `List Nat`;
  `mem::size_of::<T>()` becomes an explicit `elemSize` parameter, and
  `T::default()` an explicit `dflt : List Nat` parameter;
* a `&[T]` slice is a `List (List Nat)` of element byte images, its flat
  byte image being `List.flatten`;
* Rust `panic` (integer division by zero) is modelled by `Option`: the
  function returns `none` exactly when the Rust function panics;
* `u32` index values are `Nat`; the unreferenced-vertex sentinel is the
  maximum `u32` value.
-/

/-- The reserved out-of-range 32-bit value marking an unreferenced vertex
(the maximum representable unsigned 32-bit value). -/
def sentinel : Nat := 4294967295

/-- Byte record of the vertex at position `p` in a list of records. -/
def recOf (recs : List (List Nat)) (p : Nat) : List Nat := recs.getD p []

/-- Referenced positions, scanned front to back: the index buffer when
present, otherwise every vertex-buffer position once, in order (the wrappers
pass a null index pointer and `index_count = vertex_count` in that case). -/
def refsOf (indices : Option (List Nat)) (n : Nat) : List Nat :=
  match indices with
  | some ib => ib
  | none => List.range n

/-- Index of the first occurrence of record `r` in `seen`
(`seen.length` when absent). -/
def idxOfR : List (List Nat) → List Nat → Nat
  | [], _ => 0
  | x :: xs, r => if x = r then 0 else idxOfR xs r + 1

/-- One pass of the remap generation scan: visit each referenced position in
order; on first sight of a byte pattern append it to `seen` (its canonical
index is its position in `seen`), on a repeat reuse the existing index; write
the canonical index into the remap slot of the visited position. -/
def generateRemapLoop (recs : List (List Nat)) :
    List Nat → List (List Nat) → List Nat → List (List Nat) × List Nat
  | [], seen, remap => (seen, remap)
  | p :: rest, seen, remap =>
    if recOf recs p ∈ seen then
      generateRemapLoop recs rest seen (remap.set p (idxOfR seen (recOf recs p)))
    else
      generateRemapLoop recs rest (seen ++ [recOf recs p]) (remap.set p seen.length)

/-- Modelled from the spec: the body of the foreign function
`meshopt_generateVertexRemap` (and of `meshopt_generateVertexRemapMulti`,
which has the same contract over concatenated stream records) is not under
`src/`.  Per the spec it scans the referenced positions front to back,
assigns the next sequential canonical index (starting at 0) on first sight
of a byte pattern and reuses the existing index on a repeat, leaves every
unreferenced position at the sentinel, and returns the number of distinct
patterns seen together with the filled remap table of length
`vertex_count`. -/
def meshopt_generateVertexRemap (recs : List (List Nat)) (refs : List Nat) :
    Nat × List Nat :=
  let res := generateRemapLoop recs refs [] (List.replicate recs.length sentinel)
  (res.1.length, res.2)

/-- Byte record extraction: the `vertex_size`-byte record at position `i` of
a flat byte buffer. -/
def getRecord (bytes : List Nat) (vertex_size i : Nat) : List Nat :=
  (bytes.drop (i * vertex_size)).take vertex_size

/-- Overwrite the `vertex_size`-byte record at position `j` of a flat byte
buffer with `r`. -/
def writeRecord (bytes : List Nat) (vertex_size j : Nat) (r : List Nat) :
    List Nat :=
  bytes.take (j * vertex_size) ++ r ++ bytes.drop (j * vertex_size + vertex_size)

/-- Copy loop of the vertex-buffer remapper: process old positions
`0, 1, ..., n-1` in order; for each position with a non-sentinel remap value
copy its record from `src` into slot `remap[i]` of the evolving buffer. -/
def remapWriteAux (src : List Nat) (vertex_size : Nat) (remap : List Nat) :
    Nat → List Nat → List Nat
  | 0, dest => dest
  | n + 1, dest =>
    let buf := remapWriteAux src vertex_size remap n dest
    if remap.getD n sentinel ≠ sentinel then
      writeRecord buf vertex_size (remap.getD n sentinel) (getRecord src vertex_size n)
    else buf

/-- Modelled from the spec: the body of the foreign function
`meshopt_remapVertexBuffer` is not under `src/`.  Per the spec, for every old
position `i` with `remap[i] != sentinel` the `vertex_size`-byte record at old
position `i` of the source is copied into position `remap[i]` of the
destination; sentinel positions are skipped; in-place invocation is supported
by reading every record from a snapshot of the source taken before any
write. -/
def meshopt_remapVertexBuffer (dest src : List Nat) (vertex_size : Nat)
    (remap : List Nat) : List Nat :=
  remapWriteAux src vertex_size remap remap.length dest

/-- Modelled from the spec: the body of the foreign function
`meshopt_remapIndexBuffer` is not under `src/`.  Per the spec every output
entry is the remap-table lookup of the corresponding input entry; with a null
index pointer the input entry at position `i` is `i` itself. -/
def meshopt_remapIndexBuffer (indices : Option (List Nat)) (count : Nat)
    (remap : List Nat) : List Nat :=
  match indices with
  | some ib => ib.map (fun j => remap.getD j 0)
  | none => (List.range count).map (fun i => remap.getD i 0)

/-- A strided view over one vertex attribute channel (`VertexStream` from
the Rust crate): base data, element size in bytes, stride in bytes. -/
structure VertexStream where
  data : List Nat
  size : Nat
  stride : Nat

/-- The `size` bytes contributed by one stream at position `p`; the stride
only locates consecutive records. -/
def streamRecord (s : VertexStream) (p : Nat) : List Nat :=
  (s.data.drop (p * s.stride)).take s.size

/-- Concatenated multi-stream record at position `p`: each stream contributes
its `size` bytes, in stream order. -/
def multiRecord (streams : List VertexStream) (p : Nat) : List Nat :=
  (streams.map (fun s => streamRecord s p)).flatten

/-- Records of the single-stream generator: `vertex_size`-byte records carved
from the flat byte image of the vertex slice. -/
def singleRecs (vertices : List (List Nat)) (vertex_size vertex_count : Nat) :
    List (List Nat) :=
  (List.range vertex_count).map (fun i => getRecord vertices.flatten vertex_size i)

/-- Translation of `generate_vertex_sized_remap` from `src/remap.rs`: the
wrapper computes `vertex_count = vertices.len() / (vertex_size / size_of::<T>())`
(the inner quotient flooring silently; the outer division panics — `none` —
when the inner quotient is zero, including the `size_of::<T>() = 0` case,
where the inner division itself panics in Rust), then delegates to the
foreign scan with the index buffer, or with a null pointer and
`index_count = vertex_count` when unindexed.  The local binding
`vcountOf` is the wrapper's `vertex_count` variable. -/
def vcountOf (vertices : List (List Nat)) (elemSize vertex_size : Nat) : Nat :=
  vertices.length / (vertex_size / elemSize)

def generate_vertex_sized_remap (vertices : List (List Nat))
    (elemSize vertex_size : Nat) (indices : Option (List Nat)) :
    Option (Nat × List Nat) :=
  if vertex_size / elemSize = 0 then none
  else
    some (meshopt_generateVertexRemap
      (singleRecs vertices vertex_size (vcountOf vertices elemSize vertex_size))
      (refsOf indices (vcountOf vertices elemSize vertex_size)))

/-- Translation of `generate_vertex_remap` from `src/remap.rs`: delegates to
the sized variant with `vertex_size = mem::size_of::<T>()`. -/
def generate_vertex_remap (vertices : List (List Nat)) (elemSize : Nat)
    (indices : Option (List Nat)) : Option (Nat × List Nat) :=
  generate_vertex_sized_remap vertices elemSize elemSize indices

/-- Translation of `generate_vertex_remap_multi` from `src/remap.rs`: builds
the stream descriptors and delegates to the foreign multi-stream scan, whose
equivalence is over the concatenated per-stream records. -/
def generate_vertex_remap_multi (vertex_count : Nat)
    (streams : List VertexStream) (indices : Option (List Nat)) :
    Nat × List Nat :=
  meshopt_generateVertexRemap
    ((List.range vertex_count).map (fun p => multiRecord streams p))
    (refsOf indices vertex_count)

/-- Translation of `remap_index_buffer` from `src/remap.rs`: with indices the
result has the indices' length; without, a result of length `vertex_count` is
synthesized with a null index pointer. -/
def remap_index_buffer (indices : Option (List Nat)) (vertex_count : Nat)
    (remap : List Nat) : List Nat :=
  match indices with
  | some ib => meshopt_remapIndexBuffer (some ib) ib.length remap
  | none => meshopt_remapIndexBuffer none vertex_count remap

/-- Translation of `remap_vertex_buffer_sized` from `src/remap.rs`: allocates
`vertex_count * (vertex_size / size_of::<T>())` default-initialized elements
(`none` models the Rust panic on `size_of::<T>() = 0`) and delegates the copy
to the foreign function; the result is the flat byte image of the output
slice. -/
def remap_vertex_buffer_sized (vertices : List (List Nat)) (dflt : List Nat)
    (elemSize vertex_count vertex_size : Nat) (remap : List Nat) :
    Option (List Nat) :=
  if elemSize = 0 then none
  else
    some (meshopt_remapVertexBuffer
      (List.replicate (vertex_count * (vertex_size / elemSize)) dflt).flatten
      vertices.flatten vertex_size remap)

/-- Translation of `remap_vertex_buffer` from `src/remap.rs`: the sized
variant with `vertex_size = mem::size_of::<T>()`. -/
def remap_vertex_buffer (vertices : List (List Nat)) (dflt : List Nat)
    (elemSize vertex_count : Nat) (remap : List Nat) : Option (List Nat) :=
  remap_vertex_buffer_sized vertices dflt elemSize vertex_count elemSize remap

/-- Translation of `remap_vertex_buffer_sized_in_place` from `src/remap.rs`:
the foreign copy is invoked with the destination pointer equal to the source
pointer; the result is the flat byte image of the buffer after the call. -/
def remap_vertex_buffer_sized_in_place (vertices : List (List Nat))
    (elemSize vertex_count vertex_size : Nat) (remap : List Nat) : List Nat :=
  meshopt_remapVertexBuffer vertices.flatten vertices.flatten vertex_size remap

/-- Final state of the generation scan (seen records in first-appearance
order, filled remap table); `meshopt_generateVertexRemap` returns the length
of the first component and the second component. -/
def genState (recs : List (List Nat)) (refs : List Nat) :
    List (List Nat) × List Nat :=
  generateRemapLoop recs refs [] (List.replicate recs.length sentinel)

/-! ### Helper lemmas about `idxOfR`, `List.getD` and `List.set` -/

lemma idxOfR_lt_length {seen : List (List Nat)} {r : List Nat} (h : r ∈ seen) :
    idxOfR seen r < seen.length := by
  induction seen with
  | nil => simp at h
  | cons x xs ih =>
    by_cases hx : x = r
    · simp [idxOfR, hx]
    · rcases List.mem_cons.mp h with h' | h'
      · exact absurd h'.symm hx
      · simpa [idxOfR, hx] using ih h'

lemma idxOfR_append_of_mem {seen l₂ : List (List Nat)} {r : List Nat} (h : r ∈ seen) :
    idxOfR (seen ++ l₂) r = idxOfR seen r := by
  induction seen with
  | nil => simp at h
  | cons x xs ih =>
    by_cases hx : x = r
    · simp [idxOfR, hx]
    · rcases List.mem_cons.mp h with h' | h'
      · exact absurd h'.symm hx
      · simp [idxOfR, hx, ih h']

lemma idxOfR_append_self {seen : List (List Nat)} {r : List Nat} (h : r ∉ seen) :
    idxOfR (seen ++ [r]) r = seen.length := by
  induction seen with
  | nil => simp [idxOfR]
  | cons x xs ih =>
    have hx : x ≠ r := fun hxr => h (by simp [hxr])
    have hxs : r ∉ xs := fun hm => h (List.mem_cons_of_mem _ hm)
    simp [idxOfR, hx, ih hxs]

lemma idxOfR_inj {seen : List (List Nat)} {r s : List Nat} (hr : r ∈ seen) (hs : s ∈ seen)
    (h : idxOfR seen r = idxOfR seen s) : r = s := by
  induction seen with
  | nil => simp at hr
  | cons x xs ih =>
    by_cases hxr : x = r <;> by_cases hxs : x = s
    · exact hxr.symm.trans hxs
    · simp only [idxOfR, if_pos hxr, if_neg hxs] at h
      exact absurd h.symm (Nat.succ_ne_zero _)
    · simp only [idxOfR, if_neg hxr, if_pos hxs] at h
      exact absurd h (Nat.succ_ne_zero _)
    · rcases List.mem_cons.mp hr with h' | h'
      · exact absurd h'.symm hxr
      · rcases List.mem_cons.mp hs with h'' | h''
        · exact absurd h''.symm hxs
        · simp only [idxOfR, if_neg hxr, if_neg hxs, Nat.add_right_cancel_iff] at h
          exact ih h' h'' h

lemma idxOfR_getD {seen : List (List Nat)} (hnd : seen.Nodup) :
    ∀ {k : Nat}, k < seen.length → idxOfR seen (seen.getD k []) = k := by
  induction seen with
  | nil => intro k hk; simp at hk
  | cons x xs ih =>
    intro k hk
    match k with
    | 0 => simp [idxOfR]
    | k + 1 =>
      have hnd' := (List.nodup_cons.mp hnd).2
      have hx : x ∉ xs := (List.nodup_cons.mp hnd).1
      have hk' : k < xs.length := by simpa using hk
      have hmem : xs.getD k [] ∈ xs := by
        have := List.getD_eq_getElem?_getD xs k []
        rw [this, List.getElem?_eq_getElem hk']
        exact List.getElem_mem hk'
      have hne : x ≠ xs.getD k [] := fun hEq => hx (hEq ▸ hmem)
      simp only [List.getD_cons_succ, idxOfR, if_neg hne, ih hnd' hk']

lemma getD_set_self {l : List Nat} {p v d : Nat} (h : p < l.length) :
    (l.set p v).getD p d = v := by
  rw [List.getD_eq_getElem?_getD, List.getElem?_set_self', List.getElem?_eq_getElem h]
  rfl

lemma getD_set_of_ne {l : List Nat} {p q : Nat} (v : Nat) {d : Nat} (h : p ≠ q) :
    (l.set p v).getD q d = l.getD q d := by
  rw [List.getD_eq_getElem?_getD, List.getElem?_set_ne h, List.getD_eq_getElem?_getD]

lemma getD_replicate_of_lt {n p a d : Nat} (h : p < n) :
    (List.replicate n a).getD p d = a := by
  rw [List.getD_eq_getElem?_getD, List.getElem?_replicate_of_lt h]
  rfl

/-! ### Invariant of the generation scan -/

/-- State invariant of `generateRemapLoop` after visiting the positions of
`t`, in order: `seen` holds the distinct records of the visited positions in
first-appearance order, visited slots hold the canonical index of their
record, unvisited slots hold the sentinel. -/
structure LoopInv (recs : List (List Nat)) (t : List Nat)
    (seen : List (List Nat)) (remap : List Nat) : Prop where
  len : remap.length = recs.length
  nodup : seen.Nodup
  mem_iff : ∀ r, r ∈ seen ↔ r ∈ t.map (recOf recs)
  at_proc : ∀ p ∈ t, p < recs.length → remap.getD p 0 = idxOfR seen (recOf recs p)
  at_unproc : ∀ p < recs.length, p ∉ t → remap.getD p 0 = sentinel
  ordered : ∀ r ∈ seen, ∀ s ∈ seen,
    (idxOfR seen r < idxOfR seen s ↔
      idxOfR (t.map (recOf recs)) r < idxOfR (t.map (recOf recs)) s)
  card : seen.length ≤ t.length

lemma loopInv_base (recs : List (List Nat)) :
    LoopInv recs [] [] (List.replicate recs.length sentinel) := by
  refine ⟨by simp, List.nodup_nil, by simp, by simp, ?_, by simp, Nat.le_refl 0⟩
  intro p hp _
  exact getD_replicate_of_lt hp

lemma loopInv_step_mem {recs : List (List Nat)} {t : List Nat}
    {seen : List (List Nat)} {remap : List Nat} {p : Nat} (hp : p < recs.length)
    (hmem : recOf recs p ∈ seen) (inv : LoopInv recs t seen remap) :
    LoopInv recs (t ++ [p]) seen (remap.set p (idxOfR seen (recOf recs p))) := by
  have hmapped : recOf recs p ∈ t.map (recOf recs) ++ [recOf recs p] := by simp
  refine ⟨by simp [inv.len], inv.nodup, ?_, ?_, ?_, ?_, ?_⟩
  · intro r
    rw [List.map_append]
    constructor
    · intro hr
      exact List.mem_append_left _ ((inv.mem_iff r).mp hr)
    · intro hr
      rcases List.mem_append.mp hr with hr | hr
      · exact (inv.mem_iff r).mpr hr
      · rw [List.map_singleton, List.mem_singleton] at hr
        exact hr ▸ hmem
  · intro q hq hqN
    by_cases hqp : q = p
    · subst hqp
      exact getD_set_self (inv.len ▸ hp)
    · rw [getD_set_of_ne _ (fun h => hqp h.symm)]
      rcases List.mem_append.mp hq with hq | hq
      · exact inv.at_proc q hq hqN
      · rw [List.mem_singleton] at hq
        exact absurd hq hqp
  · intro q hqN hq
    have hqp : q ≠ p := fun h => hq (by rw [h]; exact List.mem_append_right _ (List.mem_singleton_self p))
    have hqt : q ∉ t := fun h => hq (List.mem_append_left _ h)
    rw [getD_set_of_ne _ (fun h => hqp h.symm)]
    exact inv.at_unproc q hqN hqt
  · intro r hr s hs
    rw [List.map_append, List.map_singleton,
      idxOfR_append_of_mem ((inv.mem_iff r).mp hr),
      idxOfR_append_of_mem ((inv.mem_iff s).mp hs)]
    exact inv.ordered r hr s hs
  · calc seen.length ≤ t.length := inv.card
      _ ≤ (t ++ [p]).length := by simp

lemma loopInv_step_new {recs : List (List Nat)} {t : List Nat}
    {seen : List (List Nat)} {remap : List Nat} {p : Nat} (hp : p < recs.length)
    (hmem : recOf recs p ∉ seen) (inv : LoopInv recs t seen remap) :
    LoopInv recs (t ++ [p]) (seen ++ [recOf recs p]) (remap.set p seen.length) := by
  have hcm : recOf recs p ∉ t.map (recOf recs) :=
    fun h => hmem ((inv.mem_iff _).mpr h)
  refine ⟨by simp [inv.len], ?_, ?_, ?_, ?_, ?_, ?_⟩
  · refine inv.nodup.append (List.nodup_singleton _) ?_
    intro a ha hb
    rw [List.mem_singleton] at hb
    exact hmem (hb ▸ ha)
  · intro r
    rw [List.map_append, List.map_singleton, List.mem_append, List.mem_append]
    rw [inv.mem_iff r]
  · intro q hq hqN
    by_cases hqp : q = p
    · subst hqp
      rw [getD_set_self (inv.len ▸ hp)]
      exact (idxOfR_append_self hmem).symm
    · rw [getD_set_of_ne _ (fun h => hqp h.symm)]
      rcases List.mem_append.mp hq with hq | hq
      · rw [inv.at_proc q hq hqN]
        exact (idxOfR_append_of_mem ((inv.mem_iff _).mpr (List.mem_map_of_mem _ hq))).symm
      · rw [List.mem_singleton] at hq
        exact absurd hq hqp
  · intro q hqN hq
    have hqp : q ≠ p := fun h => hq (by rw [h]; exact List.mem_append_right _ (List.mem_singleton_self p))
    have hqt : q ∉ t := fun h => hq (List.mem_append_left _ h)
    rw [getD_set_of_ne _ (fun h => hqp h.symm)]
    exact inv.at_unproc q hqN hqt
  · intro r hr s hs
    rw [List.map_append, List.map_singleton]
    rcases List.mem_append.mp hr with hr | hr <;>
      rcases List.mem_append.mp hs with hs | hs
    · rw [idxOfR_append_of_mem hr, idxOfR_append_of_mem hs,
        idxOfR_append_of_mem ((inv.mem_iff r).mp hr),
        idxOfR_append_of_mem ((inv.mem_iff s).mp hs)]
      exact inv.ordered r hr s hs
    · rw [List.mem_singleton] at hs
      subst hs
      rw [idxOfR_append_of_mem hr, idxOfR_append_self hmem,
        idxOfR_append_of_mem ((inv.mem_iff r).mp hr), idxOfR_append_self hcm]
      exact iff_of_true (idxOfR_lt_length hr)
        (idxOfR_lt_length ((inv.mem_iff r).mp hr))
    · rw [List.mem_singleton] at hr
      subst hr
      rw [idxOfR_append_of_mem hs, idxOfR_append_self hmem,
        idxOfR_append_of_mem ((inv.mem_iff s).mp hs), idxOfR_append_self hcm]
      exact iff_of_false (Nat.not_lt.mpr (Nat.le_of_lt (idxOfR_lt_length hs)))
        (Nat.not_lt.mpr (Nat.le_of_lt (idxOfR_lt_length ((inv.mem_iff s).mp hs))))
    · rw [List.mem_singleton] at hr hs
      subst hr
      subst hs
      rw [idxOfR_append_self hmem, idxOfR_append_self hcm]
      exact iff_of_false (Nat.lt_irrefl _) (Nat.lt_irrefl _)
  · have : (seen ++ [recOf recs p]).length = seen.length + 1 := by simp
    rw [this]
    calc seen.length + 1 ≤ t.length + 1 := Nat.succ_le_succ inv.card
      _ = (t ++ [p]).length := by simp

lemma generateRemapLoop_inv (recs : List (List Nat)) :
    ∀ (rest t : List Nat) (seen : List (List Nat)) (remap : List Nat),
      (∀ p ∈ rest, p < recs.length) → LoopInv recs t seen remap →
      LoopInv recs (t ++ rest)
        (generateRemapLoop recs rest seen remap).1
        (generateRemapLoop recs rest seen remap).2
  | [], t, seen, remap, _, inv => by simpa [generateRemapLoop] using inv
  | p :: rest, t, seen, remap, hin, inv => by
    have hp : p < recs.length := hin p (List.mem_cons_self p rest)
    have hin' : ∀ q ∈ rest, q < recs.length :=
      fun q hq => hin q (List.mem_cons_of_mem _ hq)
    by_cases hmem : recOf recs p ∈ seen
    · have ih := generateRemapLoop_inv recs rest (t ++ [p]) seen
        (remap.set p (idxOfR seen (recOf recs p))) hin'
        (loopInv_step_mem hp hmem inv)
      simpa [generateRemapLoop, hmem, List.append_assoc] using ih
    · have ih := generateRemapLoop_inv recs rest (t ++ [p])
        (seen ++ [recOf recs p]) (remap.set p seen.length) hin'
        (loopInv_step_new hp hmem inv)
      simpa [generateRemapLoop, hmem, List.append_assoc] using ih

lemma generateRemapLoop_len (recs : List (List Nat)) :
    ∀ (rest : List Nat) (seen : List (List Nat)) (remap : List Nat),
      (generateRemapLoop recs rest seen remap).2.length = remap.length
  | [], seen, remap => by simp [generateRemapLoop]
  | p :: rest, seen, remap => by
    by_cases hmem : recOf recs p ∈ seen
    · simp [generateRemapLoop, hmem, generateRemapLoop_len recs rest]
    · simp [generateRemapLoop, hmem, generateRemapLoop_len recs rest]

lemma gen_inv {recs : List (List Nat)} {refs : List Nat}
    (hin : ∀ p ∈ refs, p < recs.length) :
    LoopInv recs refs (genState recs refs).1 (genState recs refs).2 := by
  have h := generateRemapLoop_inv recs refs [] []
    (List.replicate recs.length sentinel) hin (loopInv_base recs)
  simpa [genState] using h

lemma meshopt_generateVertexRemap_eq (recs : List (List Nat)) (refs : List Nat) :
    meshopt_generateVertexRemap recs refs =
      ((genState recs refs).1.length, (genState recs refs).2) := rfl

lemma getD_mem_of_lt {l : List (List Nat)} {k : Nat} (hk : k < l.length) :
    l.getD k [] ∈ l := by
  rw [List.getD_eq_getElem?_getD, List.getElem?_eq_getElem hk]
  exact List.getElem_mem hk

/-! ### Facts about the generation scan's result -/

lemma gen_len (recs : List (List Nat)) (refs : List Nat) :
    (genState recs refs).2.length = recs.length := by
  rw [genState, generateRemapLoop_len]
  exact List.length_replicate _ _

lemma gen_rec_mem {recs : List (List Nat)} {refs : List Nat}
    (hin : ∀ p ∈ refs, p < recs.length) {p : Nat} (hp : p ∈ refs) :
    recOf recs p ∈ (genState recs refs).1 :=
  ((gen_inv hin).mem_iff _).mpr (List.mem_map_of_mem _ hp)

lemma gen_at_ref {recs : List (List Nat)} {refs : List Nat}
    (hin : ∀ p ∈ refs, p < recs.length) {p : Nat} (hp : p ∈ refs) :
    (genState recs refs).2.getD p 0 = idxOfR (genState recs refs).1 (recOf recs p) :=
  (gen_inv hin).at_proc p hp (hin p hp)

lemma gen_eq_iff {recs : List (List Nat)} {refs : List Nat}
    (hin : ∀ p ∈ refs, p < recs.length) {i j : Nat}
    (hi : i ∈ refs) (hj : j ∈ refs) :
    ((genState recs refs).2.getD i 0 = (genState recs refs).2.getD j 0) ↔
      recOf recs i = recOf recs j := by
  rw [gen_at_ref hin hi, gen_at_ref hin hj]
  constructor
  · exact idxOfR_inj (gen_rec_mem hin hi) (gen_rec_mem hin hj)
  · intro h
    rw [h]

lemma gen_lt_count {recs : List (List Nat)} {refs : List Nat}
    (hin : ∀ p ∈ refs, p < recs.length) {p : Nat} (hp : p ∈ refs) :
    (genState recs refs).2.getD p 0 < (genState recs refs).1.length := by
  rw [gen_at_ref hin hp]
  exact idxOfR_lt_length (gen_rec_mem hin hp)

lemma gen_sentinel {recs : List (List Nat)} {refs : List Nat}
    (hin : ∀ p ∈ refs, p < recs.length) {p : Nat}
    (hpN : p < recs.length) (hp : p ∉ refs) :
    (genState recs refs).2.getD p 0 = sentinel :=
  (gen_inv hin).at_unproc p hpN hp

lemma gen_count_le {recs : List (List Nat)} {refs : List Nat}
    (hin : ∀ p ∈ refs, p < recs.length) :
    (genState recs refs).1.length ≤ refs.length := by
  have h := (gen_inv hin).card
  simpa using h

lemma gen_surj {recs : List (List Nat)} {refs : List Nat}
    (hin : ∀ p ∈ refs, p < recs.length) {k : Nat}
    (hk : k < (genState recs refs).1.length) :
    ∃ p, p ∈ refs ∧ (genState recs refs).2.getD p 0 = k := by
  have inv := gen_inv hin
  have hmem : (genState recs refs).1.getD k [] ∈ (genState recs refs).1 :=
    getD_mem_of_lt hk
  have hmapped := (inv.mem_iff _).mp hmem
  rcases List.mem_map.mp hmapped with ⟨p, hp, hrec⟩
  refine ⟨p, hp, ?_⟩
  rw [gen_at_ref hin hp, hrec, idxOfR_getD inv.nodup hk]

lemma gen_order {recs : List (List Nat)} {refs : List Nat}
    (hin : ∀ p ∈ refs, p < recs.length) {i j : Nat}
    (hi : i ∈ refs) (hj : j ∈ refs)
    (hord : idxOfR (refs.map (recOf recs)) (recOf recs i) <
      idxOfR (refs.map (recOf recs)) (recOf recs j)) :
    (genState recs refs).2.getD i 0 < (genState recs refs).2.getD j 0 := by
  rw [gen_at_ref hin hi, gen_at_ref hin hj]
  exact ((gen_inv hin).ordered _ (gen_rec_mem hin hi) _ (gen_rec_mem hin hj)).mpr hord

lemma gen_count_eq_dedup {recs : List (List Nat)} {refs : List Nat}
    (hin : ∀ p ∈ refs, p < recs.length) :
    (genState recs refs).1.length = (refs.map (recOf recs)).dedup.length := by
  have inv := gen_inv hin
  have hperm : List.Perm (genState recs refs).1 (refs.map (recOf recs)).dedup := by
    rw [List.perm_ext_iff_of_nodup inv.nodup (List.nodup_dedup _)]
    intro a
    rw [List.mem_dedup]
    exact inv.mem_iff a
  exact hperm.length_eq

lemma gen_ne_sentinel {recs : List (List Nat)} {refs : List Nat}
    (hin : ∀ p ∈ refs, p < recs.length) (hlen : refs.length ≤ sentinel)
    {p : Nat} (hp : p ∈ refs) :
    (genState recs refs).2.getD p 0 ≠ sentinel := by
  have h1 := gen_lt_count hin hp
  have h2 := gen_count_le hin
  exact Nat.ne_of_lt (Nat.lt_of_lt_of_le h1 (Nat.le_trans h2 hlen))

/-! ### Record-level reading and writing of flat byte buffers -/

lemma getRecord_length {bytes : List Nat} {vs i : Nat}
    (h : (i + 1) * vs ≤ bytes.length) :
    (getRecord bytes vs i).length = vs := by
  rw [Nat.succ_mul] at h
  simp only [getRecord, List.length_take, List.length_drop]
  omega

lemma length_writeRecord {bytes r : List Nat} {vs j : Nat}
    (hr : r.length = vs) (hj : (j + 1) * vs ≤ bytes.length) :
    (writeRecord bytes vs j r).length = bytes.length := by
  rw [Nat.succ_mul] at hj
  simp only [writeRecord, List.length_append, List.length_take,
    List.length_drop, hr]
  omega

lemma getRecord_writeRecord_self {bytes r : List Nat} {vs j : Nat}
    (hr : r.length = vs) (hj : (j + 1) * vs ≤ bytes.length) :
    getRecord (writeRecord bytes vs j r) vs j = r := by
  rw [Nat.succ_mul] at hj
  have h1 : (bytes.take (j * vs)).length = j * vs := by
    rw [List.length_take]
    omega
  rw [getRecord, writeRecord, List.append_assoc, List.drop_left' h1,
    List.take_left' hr]

lemma getRecord_writeRecord_ne {bytes r : List Nat} {vs i j : Nat}
    (hr : r.length = vs) (hj : (j + 1) * vs ≤ bytes.length) (hne : i ≠ j) :
    getRecord (writeRecord bytes vs j r) vs i = getRecord bytes vs i := by
  have hj' : j * vs + vs ≤ bytes.length := by
    rw [Nat.succ_mul] at hj
    exact hj
  have hA : (bytes.take (j * vs)).length = j * vs := by
    rw [List.length_take]
    omega
  rcases Nat.lt_or_ge i j with hij | hij
  · -- reading strictly before the written slot
    have hle : i * vs + vs ≤ j * vs := by
      have h := Nat.mul_le_mul_right vs hij
      rw [Nat.succ_mul] at h
      exact h
    rw [getRecord, writeRecord, List.append_assoc,
      List.drop_append_eq_append_drop, hA]
    have h0 : i * vs - j * vs = 0 := by omega
    rw [h0, List.drop_zero, List.take_append_eq_append_take]
    have hlen2 : vs - ((bytes.take (j * vs)).drop (i * vs)).length = 0 := by
      rw [List.length_drop, hA]
      omega
    rw [hlen2, List.take_zero, List.append_nil, List.drop_take, List.take_take]
    have hmin : min vs (j * vs - i * vs) = vs := by omega
    rw [hmin, getRecord]
  · -- reading strictly after the written slot
    have hij' : j < i := by omega
    have hge : j * vs + vs ≤ i * vs := by
      have h := Nat.mul_le_mul_right vs hij'
      rw [Nat.succ_mul] at h
      exact h
    have hAB : (bytes.take (j * vs) ++ r).length = j * vs + vs := by
      rw [List.length_append, hA, hr]
    rw [getRecord, writeRecord, List.drop_append_eq_append_drop, hAB]
    have hnil : (bytes.take (j * vs) ++ r).drop (i * vs) = [] :=
      List.drop_eq_nil_of_le (by omega)
    rw [hnil, List.nil_append, List.drop_drop]
    have harith : j * vs + vs + (i * vs - (j * vs + vs)) = i * vs := by omega
    rw [harith, getRecord]

/-- Main copy-loop lemma: after processing the first `n` old positions, the
buffer length is unchanged, every slot no processed position maps to holds
its original record, and every slot a processed position maps to holds that
position's source record (coherence makes the last write representative). -/
lemma remapWriteAux_spec (src : List Nat) (vs : Nat) (remap : List Nat)
    (dest : List Nat)
    (hsrc : ∀ i < remap.length, (i + 1) * vs ≤ src.length)
    (hrange : ∀ i < remap.length, remap.getD i sentinel ≠ sentinel →
      (remap.getD i sentinel + 1) * vs ≤ dest.length)
    (hcoh : ∀ i < remap.length, ∀ j < remap.length,
      remap.getD i sentinel = remap.getD j sentinel →
      remap.getD i sentinel ≠ sentinel →
      getRecord src vs i = getRecord src vs j) :
    ∀ n, n ≤ remap.length →
      (remapWriteAux src vs remap n dest).length = dest.length ∧
      (∀ j, (∀ i < n, remap.getD i sentinel ≠ j) →
        getRecord (remapWriteAux src vs remap n dest) vs j =
          getRecord dest vs j) ∧
      (∀ i < n, remap.getD i sentinel ≠ sentinel →
        getRecord (remapWriteAux src vs remap n dest) vs
          (remap.getD i sentinel) = getRecord src vs i) := by
  intro n
  induction n with
  | zero =>
    intro _
    refine ⟨rfl, fun j _ => rfl, fun i hi _ => absurd hi (Nat.not_lt_zero i)⟩
  | succ n ih =>
    intro hn
    have hn' : n ≤ remap.length := Nat.le_of_succ_le hn
    have hnlt : n < remap.length := hn
    obtain ⟨ihlen, ihmiss, ihhit⟩ := ih hn'
    by_cases hs : remap.getD n sentinel ≠ sentinel
    · have hreclen : (getRecord src vs n).length = vs :=
        getRecord_length (hsrc n hnlt)
      have hbound : (remap.getD n sentinel + 1) * vs ≤
          (remapWriteAux src vs remap n dest).length := by
        rw [ihlen]
        exact hrange n hnlt hs
      have hstep : remapWriteAux src vs remap (n + 1) dest =
          writeRecord (remapWriteAux src vs remap n dest) vs
            (remap.getD n sentinel) (getRecord src vs n) := by
        show (if remap.getD n sentinel ≠ sentinel then
          writeRecord (remapWriteAux src vs remap n dest) vs
            (remap.getD n sentinel) (getRecord src vs n)
          else remapWriteAux src vs remap n dest) = _
        rw [if_pos hs]
      refine ⟨?_, ?_, ?_⟩
      · rw [hstep, length_writeRecord hreclen hbound, ihlen]
      · intro j hj
        have hjn : remap.getD n sentinel ≠ j := hj n (Nat.lt_succ_self n)
        rw [hstep, getRecord_writeRecord_ne hreclen hbound (fun h => hjn h.symm)]
        exact ihmiss j (fun i hi => hj i (Nat.lt_succ_of_lt hi))
      · intro i hi his
        rcases Nat.lt_succ_iff_lt_or_eq.mp hi with hi' | hi'
        · by_cases heq : remap.getD i sentinel = remap.getD n sentinel
          · rw [hstep, heq, getRecord_writeRecord_self hreclen hbound]
            exact (hcoh i (Nat.lt_of_lt_of_le hi' hn') n hnlt heq his).symm
          · rw [hstep, getRecord_writeRecord_ne hreclen hbound heq]
            exact ihhit i hi' his
        · subst hi'
          rw [hstep, getRecord_writeRecord_self hreclen hbound]
    · push_neg at hs
      have hstep : remapWriteAux src vs remap (n + 1) dest =
          remapWriteAux src vs remap n dest := by
        show (if remap.getD n sentinel ≠ sentinel then
          writeRecord (remapWriteAux src vs remap n dest) vs
            (remap.getD n sentinel) (getRecord src vs n)
          else remapWriteAux src vs remap n dest) = _
        rw [if_neg (fun hcon => hcon hs)]
      refine ⟨hstep ▸ ihlen, ?_, ?_⟩
      · intro j hj
        rw [hstep]
        exact ihmiss j (fun i hi => hj i (Nat.lt_succ_of_lt hi))
      · intro i hi his
        have hi' : i < n := by
          rcases Nat.lt_succ_iff_lt_or_eq.mp hi with h | h
          · exact h
          · exact absurd (h ▸ hs) his
        rw [hstep]
        exact ihhit i hi' his

/-! ### Auxiliary list lemmas for buffers of uniform-size records -/

lemma flatten_length_uniform {L : List (List Nat)} {c : Nat}
    (h : ∀ e ∈ L, e.length = c) : L.flatten.length = L.length * c := by
  induction L with
  | nil => simp
  | cons x xs ih =>
    simp only [List.flatten_cons, List.length_append, List.length_cons]
    rw [h x (List.mem_cons_self x xs),
      ih (fun e he => h e (List.mem_cons_of_mem _ he))]
    ring

lemma flatten_replicate_length {M : Nat} {dflt : List Nat} :
    (List.replicate M dflt).flatten.length = M * dflt.length := by
  rw [flatten_length_uniform (fun e he => by rw [List.eq_of_mem_replicate he]),
    List.length_replicate]

lemma getRecord_flatten_replicate {M k es j : Nat} {dflt : List Nat}
    (hd : dflt.length = es) (hjk : (j + 1) * k ≤ M) :
    getRecord (List.replicate M dflt).flatten (k * es) j =
      (List.replicate k dflt).flatten := by
  have hjk' : j * k + k ≤ M := by
    rw [Nat.succ_mul] at hjk
    exact hjk
  have hsplit : M = j * k + (k + (M - (j * k + k))) := by omega
  rw [getRecord, hsplit, List.replicate_add, List.replicate_add,
    List.flatten_append, List.flatten_append]
  have hA : (List.replicate (j * k) dflt).flatten.length = j * (k * es) := by
    rw [flatten_replicate_length, hd]
    ring
  rw [List.drop_left' hA]
  have hB : (List.replicate k dflt).flatten.length = k * es := by
    rw [flatten_replicate_length, hd]
  rw [List.take_left' hB]

lemma eq_of_getRecord_eq {vs : Nat} (hvs : 0 < vs) :
    ∀ {m : Nat} {l₁ l₂ : List Nat}, l₁.length = m * vs → l₂.length = m * vs →
      (∀ j < m, getRecord l₁ vs j = getRecord l₂ vs j) → l₁ = l₂ := by
  intro m
  induction m with
  | zero =>
    intro l₁ l₂ h₁ h₂ _
    rw [Nat.zero_mul] at h₁ h₂
    rw [List.eq_nil_of_length_eq_zero h₁, List.eq_nil_of_length_eq_zero h₂]
  | succ m ih =>
    intro l₁ l₂ h₁ h₂ h
    have hhead : l₁.take vs = l₂.take vs := by
      have h0 := h 0 (Nat.succ_pos m)
      simpa [getRecord] using h0
    have htail : l₁.drop vs = l₂.drop vs := by
      refine ih ?_ ?_ ?_
      · rw [List.length_drop, h₁, Nat.succ_mul]
        omega
      · rw [List.length_drop, h₂, Nat.succ_mul]
        omega
      · intro j hj
        have hjrec := h (j + 1) (Nat.succ_lt_succ hj)
        simpa [getRecord, List.drop_drop, Nat.succ_mul, Nat.add_comm] using hjrec
    calc l₁ = l₁.take vs ++ l₁.drop vs := (List.take_append_drop vs l₁).symm
      _ = l₂.take vs ++ l₂.drop vs := by rw [hhead, htail]
      _ = l₂ := List.take_append_drop vs l₂

lemma getRecord_take {l : List Nat} {vs m j : Nat} (hj : j < m) :
    getRecord (l.take (m * vs)) vs j = getRecord l vs j := by
  rw [getRecord, getRecord, List.drop_take, List.take_take]
  have hle := Nat.mul_le_mul_right vs hj
  rw [Nat.succ_mul] at hle
  have hmin : min vs (m * vs - j * vs) = vs := by omega
  rw [hmin]

/-! ### Bridges between record lists and flat byte buffers -/

lemma length_singleRecs {vertices : List (List Nat)} {vs vc : Nat} :
    (singleRecs vertices vs vc).length = vc := by
  rw [singleRecs, List.length_map, List.length_range]

lemma recOf_singleRecs {vertices : List (List Nat)} {vs vc p : Nat}
    (hp : p < vc) :
    recOf (singleRecs vertices vs vc) p = getRecord vertices.flatten vs p := by
  rw [recOf, singleRecs, List.getD_eq_getElem?_getD, List.getElem?_map,
    List.getElem?_range hp]
  rfl

lemma length_multiRecs {streams : List VertexStream} {vc : Nat} :
    ((List.range vc).map (fun p => multiRecord streams p)).length = vc := by
  rw [List.length_map, List.length_range]

lemma recOf_multiRecs {streams : List VertexStream} {vc p : Nat} (hp : p < vc) :
    recOf ((List.range vc).map (fun q => multiRecord streams q)) p =
      multiRecord streams p := by
  rw [recOf, List.getD_eq_getElem?_getD, List.getElem?_map,
    List.getElem?_range hp]
  rfl

/-! ### Unpacking the generator wrappers -/

lemma gen_sized_some {vertices : List (List Nat)} {es vs : Nat}
    {indices : Option (List Nat)} {uc : Nat} {remap : List Nat}
    (hgen : generate_vertex_sized_remap vertices es vs indices = some (uc, remap)) :
    vs / es ≠ 0 ∧
    uc = (genState (singleRecs vertices vs (vcountOf vertices es vs))
      (refsOf indices (vcountOf vertices es vs))).1.length ∧
    remap = (genState (singleRecs vertices vs (vcountOf vertices es vs))
      (refsOf indices (vcountOf vertices es vs))).2 := by
  by_cases hdiv : vs / es = 0
  · rw [generate_vertex_sized_remap, if_pos hdiv] at hgen
    exact absurd hgen (by simp)
  · rw [generate_vertex_sized_remap, if_neg hdiv] at hgen
    have h := Option.some.inj hgen
    exact ⟨hdiv, (congrArg Prod.fst h).symm, (congrArg Prod.snd h).symm⟩

lemma multi_eq (vertex_count : Nat) (streams : List VertexStream)
    (indices : Option (List Nat)) :
    generate_vertex_remap_multi vertex_count streams indices =
      ((genState ((List.range vertex_count).map (fun p => multiRecord streams p))
        (refsOf indices vertex_count)).1.length,
       (genState ((List.range vertex_count).map (fun p => multiRecord streams p))
        (refsOf indices vertex_count)).2) := rfl

lemma getD_mem_nat {l : List Nat} {k d : Nat} (hk : k < l.length) :
    l.getD k d ∈ l := by
  rw [List.getD_eq_getElem?_getD, List.getElem?_eq_getElem hk]
  exact List.getElem_mem hk

lemma getD_eq_getD {l : List Nat} {p a b : Nat} (h : p < l.length) :
    l.getD p a = l.getD p b := by
  rw [List.getD_eq_getElem?_getD, List.getD_eq_getElem?_getD,
    List.getElem?_eq_getElem h]
  rfl

lemma getD_map_lt {l : List Nat} {f : Nat → Nat} {k d d' : Nat}
    (hk : k < l.length) :
    (l.map f).getD k d = f (l.getD k d') := by
  rw [List.getD_eq_getElem?_getD, List.getElem?_map,
    List.getElem?_eq_getElem hk, List.getD_eq_getElem?_getD,
    List.getElem?_eq_getElem hk]
  rfl

/-! ### Claims -/

/-- Claim C10: for `0 < vertex_size < size_of::<T>()` the quotient
`vertex_size / size_of::<T>()` is zero and the subsequent division by it
panics, so `generate_vertex_sized_remap` is not total; and for a larger
non-multiple `vertex_size` the classified vertex count (the length of the
returned remap table) is the silently floor-truncated quotient
`vertices.len() / (vertex_size / size_of::<T>())`. -/
theorem claim_C10_division :
    (∀ (vertices : List (List Nat)) (es vs : Nat) (indices : Option (List Nat)),
      0 < vs → vs < es →
      generate_vertex_sized_remap vertices es vs indices = none) ∧
    (∀ (vertices : List (List Nat)) (es vs : Nat) (indices : Option (List Nat)),
      es ≠ 0 → es ≤ vs →
      ∃ uc remap, generate_vertex_sized_remap vertices es vs indices =
        some (uc, remap) ∧ remap.length = vertices.length / (vs / es)) := by
  constructor
  · intro vertices es vs indices _ hlt
    rw [generate_vertex_sized_remap, if_pos (Nat.div_eq_of_lt hlt)]
  · intro vertices es vs indices hes hle
    have hpos : 0 < vs / es := Nat.div_pos hle (Nat.pos_of_ne_zero hes)
    refine ⟨(genState (singleRecs vertices vs (vcountOf vertices es vs))
        (refsOf indices (vcountOf vertices es vs))).1.length,
      (genState (singleRecs vertices vs (vcountOf vertices es vs))
        (refsOf indices (vcountOf vertices es vs))).2, ?_, ?_⟩
    · rw [generate_vertex_sized_remap, if_neg (Nat.ne_of_gt hpos)]
      rfl
    · rw [gen_len, length_singleRecs, vcountOf]

/-- Witness for C10 at concrete inputs: one element of size 2 with
`vertex_size = 1` panics; three elements of size 2 with `vertex_size = 3`
yield the floor-truncated classified count `3 / (3 / 2) = 3`. -/
theorem claim_C10_division_witness :
    generate_vertex_sized_remap [[0, 0]] 2 1 none = none ∧
    ∃ uc remap, generate_vertex_sized_remap [[0, 0], [1, 1], [2, 2]] 2 3 none =
      some (uc, remap) ∧ remap.length = 3 / (3 / 2) := by
  constructor
  · exact claim_C10_division.1 [[0, 0]] 2 1 none (by decide) (by decide)
  · exact claim_C10_division.2 [[0, 0], [1, 1], [2, 2]] 2 3 none
      (by decide) (by decide)

/-- Counterexample for claim C9: with an index-buffer entry `5` out of range
for the single-record vertex buffer (a precondition violation), the remap
generator still returns a result — it does not reject the input, and no
error channel exists in its return type. -/
theorem claim_C9_counterexample :
    vcountOf [[0]] 1 1 ≤ 5 ∧
    generate_vertex_sized_remap [[0]] 1 1 (some [5]) = some (1, [sentinel]) := by
  constructor
  · decide
  · rfl

/-- Amended claim C9: the operations perform no input validation — the
single-stream generator returns a result exactly when the vertex-size
division does not panic, regardless of the index buffer's contents; the
multi-stream generator always returns a remap table of the declared vertex
count, regardless of the streams (including zero element sizes); the index
remapper always returns a buffer of the input length, regardless of the
remap table's length.  The only synchronous call-boundary failure is the
division-by-zero panic of `generate_vertex_sized_remap`. -/
theorem claim_C9_no_validation :
    (∀ (vertices : List (List Nat)) (es vs : Nat) (indices : Option (List Nat)),
      (generate_vertex_sized_remap vertices es vs indices).isSome ↔ vs / es ≠ 0) ∧
    (∀ (vc : Nat) (streams : List VertexStream) (indices : Option (List Nat)),
      (generate_vertex_remap_multi vc streams indices).2.length = vc) ∧
    (∀ (ib : List Nat) (vc : Nat) (remap : List Nat),
      (remap_index_buffer (some ib) vc remap).length = ib.length) := by
  refine ⟨?_, ?_, ?_⟩
  · intro vertices es vs indices
    by_cases h : vs / es = 0
    · rw [generate_vertex_sized_remap, if_pos h]
      simp [h]
    · rw [generate_vertex_sized_remap, if_neg h]
      simp [h]
  · intro vc streams indices
    rw [multi_eq, gen_len, length_multiRecs]
  · intro ib vc remap
    rw [remap_index_buffer, meshopt_remapIndexBuffer, List.length_map]

/-- Claim C5: `remap_index_buffer` with indices returns a buffer of the same
length whose entry `k` is the remap-table lookup of `indices[k]`; without
indices it returns a buffer of length `vertex_count` whose entry `i` is the
remap-table lookup of `i`. -/
theorem claim_C5_index_remap :
    (∀ (ib : List Nat) (vc : Nat) (remap : List Nat),
      (remap_index_buffer (some ib) vc remap).length = ib.length ∧
      ∀ k < ib.length,
        (remap_index_buffer (some ib) vc remap).getD k 0 =
          remap.getD (ib.getD k 0) 0) ∧
    (∀ (vc : Nat) (remap : List Nat),
      (remap_index_buffer none vc remap).length = vc ∧
      ∀ i < vc, (remap_index_buffer none vc remap).getD i 0 = remap.getD i 0) := by
  constructor
  · intro ib vc remap
    constructor
    · rw [remap_index_buffer, meshopt_remapIndexBuffer, List.length_map]
    · intro k hk
      rw [remap_index_buffer, meshopt_remapIndexBuffer, getD_map_lt hk]
  · intro vc remap
    constructor
    · rw [remap_index_buffer, meshopt_remapIndexBuffer, List.length_map,
        List.length_range]
    · intro i hi
      have hr : (List.range vc).getD i 0 = i := by
        rw [List.getD_eq_getElem?_getD, List.getElem?_range hi]
        rfl
      rw [remap_index_buffer, meshopt_remapIndexBuffer,
        @getD_map_lt (List.range vc) (fun j => remap.getD j 0) i 0 0
          (by simpa using hi), hr]

/-- Witness for C5 on the spec's concrete scenario: indices
`[0, 1, 2, 0, 3, 2]` with remap `[0, 1, 0, 2]` give `[0, 1, 0, 0, 2, 0]`,
and the synthesized buffer for a 3-vertex unindexed mesh reads the table
directly. -/
theorem claim_C5_index_remap_witness :
    (remap_index_buffer (some [0, 1, 2, 0, 3, 2]) 4 [0, 1, 0, 2]).getD 4 0 =
      [0, 1, 0, 2].getD ([0, 1, 2, 0, 3, 2].getD 4 0) 0 ∧
    (remap_index_buffer none 3 [0, 0, 1]).getD 2 0 = [0, 0, 1].getD 2 0 := by
  constructor
  · exact (claim_C5_index_remap.1 [0, 1, 2, 0, 3, 2] 4 [0, 1, 0, 2]).2 4
      (by decide)
  · exact (claim_C5_index_remap.2 3 [0, 0, 1]).2 2 (by decide)

/-- Claim C1: for every vertex buffer (single-stream or multi-stream) with an
optional index buffer whose entries are all in range, the remap table
satisfies: for all referenced positions `i, j`, `remap[i] = remap[j]` iff the
vertex byte records at `i` and `j` (the concatenation over all streams in
multi-stream mode) are byte-for-byte equal. -/
theorem claim_C1_equivalence :
    (∀ (vertices : List (List Nat)) (es vs : Nat) (indices : Option (List Nat))
      (uc : Nat) (remap : List Nat),
      generate_vertex_sized_remap vertices es vs indices = some (uc, remap) →
      (∀ x ∈ refsOf indices (vcountOf vertices es vs),
        x < vcountOf vertices es vs) →
      ∀ i ∈ refsOf indices (vcountOf vertices es vs),
        ∀ j ∈ refsOf indices (vcountOf vertices es vs),
        (remap.getD i 0 = remap.getD j 0 ↔
          getRecord vertices.flatten vs i = getRecord vertices.flatten vs j)) ∧
    (∀ (vc : Nat) (streams : List VertexStream) (indices : Option (List Nat)),
      (∀ x ∈ refsOf indices vc, x < vc) →
      ∀ i ∈ refsOf indices vc, ∀ j ∈ refsOf indices vc,
        ((generate_vertex_remap_multi vc streams indices).2.getD i 0 =
          (generate_vertex_remap_multi vc streams indices).2.getD j 0 ↔
          multiRecord streams i = multiRecord streams j)) := by
  constructor
  · intro vertices es vs indices uc remap hgen hin i hi j hj
    obtain ⟨hdiv, huc, hremap⟩ := gen_sized_some hgen
    subst hremap
    have hin' : ∀ p ∈ refsOf indices (vcountOf vertices es vs),
        p < (singleRecs vertices vs (vcountOf vertices es vs)).length := by
      intro p hp
      rw [length_singleRecs]
      exact hin p hp
    have h := gen_eq_iff hin' hi hj
    rwa [recOf_singleRecs (hin i hi), recOf_singleRecs (hin j hj)] at h
  · intro vc streams indices hin i hi j hj
    have hin' : ∀ p ∈ refsOf indices vc,
        p < ((List.range vc).map (fun q => multiRecord streams q)).length := by
      intro p hp
      rw [length_multiRecs]
      exact hin p hp
    have h := gen_eq_iff hin' hi hj
    rwa [recOf_multiRecs (hin i hi), recOf_multiRecs (hin j hj)] at h

/-- Witness for C1 on the spec's concrete scenario `[A, B, A, C]` with
indices `[0, 1, 2, 0, 3, 2]`: positions 0 and 2 share a remap value iff they
share a record (both hold), and in the multi-stream two-position stream the
remap values of 0 and 1 agree iff their concatenated records agree. -/
theorem claim_C1_equivalence_witness :
    (([0, 1, 0, 2] : List Nat).getD 0 0 = [0, 1, 0, 2].getD 2 0 ↔
      getRecord [[1], [2], [1], [3]].flatten 1 0 =
        getRecord [[1], [2], [1], [3]].flatten 1 2) ∧
    ((generate_vertex_remap_multi 2 [⟨[7, 8, 9, 10], 2, 2⟩] none).2.getD 0 0 =
      (generate_vertex_remap_multi 2 [⟨[7, 8, 9, 10], 2, 2⟩] none).2.getD 1 0 ↔
      multiRecord [⟨[7, 8, 9, 10], 2, 2⟩] 0 = multiRecord [⟨[7, 8, 9, 10], 2, 2⟩] 1) := by
  constructor
  · exact claim_C1_equivalence.1 [[1], [2], [1], [3]] 1 1 (some [0, 1, 2, 0, 3, 2])
      3 [0, 1, 0, 2] (by decide) (by decide) 0 (by decide) 2 (by decide)
  · exact claim_C1_equivalence.2 2 [⟨[7, 8, 9, 10], 2, 2⟩] none
      (by decide) 0 (by decide) 1 (by decide)

/-- Claim C2: for every valid input, the pair `(unique_count, remap)` is
dense: the set of non-sentinel values occurring in the remap table is exactly
the interval from 0 to `unique_count - 1`. -/
theorem claim_C2_density :
    (∀ (vertices : List (List Nat)) (es vs : Nat) (indices : Option (List Nat))
      (uc : Nat) (remap : List Nat),
      generate_vertex_sized_remap vertices es vs indices = some (uc, remap) →
      (∀ x ∈ refsOf indices (vcountOf vertices es vs),
        x < vcountOf vertices es vs) →
      (refsOf indices (vcountOf vertices es vs)).length ≤ sentinel →
      ∀ w, ((∃ p, p < remap.length ∧ remap.getD p 0 = w ∧ w ≠ sentinel) ↔
        w < uc)) ∧
    (∀ (vc : Nat) (streams : List VertexStream) (indices : Option (List Nat)),
      (∀ x ∈ refsOf indices vc, x < vc) →
      (refsOf indices vc).length ≤ sentinel →
      ∀ w, ((∃ p, p < (generate_vertex_remap_multi vc streams indices).2.length ∧
        (generate_vertex_remap_multi vc streams indices).2.getD p 0 = w ∧
        w ≠ sentinel) ↔ w < (generate_vertex_remap_multi vc streams indices).1)) := by
  constructor
  · intro vertices es vs indices uc remap hgen hin hsen w
    obtain ⟨hdiv, huc, hremap⟩ := gen_sized_some hgen
    subst huc
    subst hremap
    have hin' : ∀ p ∈ refsOf indices (vcountOf vertices es vs),
        p < (singleRecs vertices vs (vcountOf vertices es vs)).length := by
      intro p hp
      rw [length_singleRecs]
      exact hin p hp
    constructor
    · rintro ⟨p, hp, hval, hw⟩
      rw [gen_len, length_singleRecs] at hp
      by_cases hpf : p ∈ refsOf indices (vcountOf vertices es vs)
      · exact hval ▸ gen_lt_count hin' hpf
      · rw [gen_sentinel hin' (by rwa [length_singleRecs]) hpf] at hval
        exact absurd hval.symm hw
    · intro hw
      obtain ⟨p, hpf, hval⟩ := gen_surj hin' hw
      refine ⟨p, ?_, hval, ?_⟩
      · rw [gen_len, length_singleRecs]
        exact hin p hpf
      · have h1 : w < (refsOf indices (vcountOf vertices es vs)).length :=
          Nat.lt_of_lt_of_le hw (gen_count_le hin')
        exact Nat.ne_of_lt (Nat.lt_of_lt_of_le h1 hsen)
  · intro vc streams indices hin hsen w
    have hin' : ∀ p ∈ refsOf indices vc,
        p < ((List.range vc).map (fun q => multiRecord streams q)).length := by
      intro p hp
      rw [length_multiRecs]
      exact hin p hp
    constructor
    · rintro ⟨p, hp, hval, hw⟩
      rw [multi_eq] at hp hval ⊢
      rw [gen_len, length_multiRecs] at hp
      by_cases hpf : p ∈ refsOf indices vc
      · exact hval ▸ gen_lt_count hin' hpf
      · rw [gen_sentinel hin' (by rwa [length_multiRecs]) hpf] at hval
        exact absurd hval.symm hw
    · intro hw
      rw [multi_eq] at hw ⊢
      obtain ⟨p, hpf, hval⟩ := gen_surj hin' hw
      refine ⟨p, ?_, hval, ?_⟩
      · rw [gen_len, length_multiRecs]
        exact hin p hpf
      · have h1 : w < (refsOf indices vc).length :=
          Nat.lt_of_lt_of_le hw (gen_count_le hin')
        exact Nat.ne_of_lt (Nat.lt_of_lt_of_le h1 hsen)

/-- Witness for C2 on the scenario `[X, X, Y]` unindexed (table `[0, 0, 1]`,
`unique_count = 2`): the value 1 occurs in the table and indeed `1 < 2`; in
the multi-stream instance the value 1 also occurs. -/
theorem claim_C2_density_witness :
    (∃ p, p < ([0, 0, 1] : List Nat).length ∧ [0, 0, 1].getD p 0 = 1 ∧
      (1 : Nat) ≠ sentinel) ∧
    (1 : Nat) < (generate_vertex_remap_multi 2 [⟨[7, 8, 9, 10], 2, 2⟩] none).1 := by
  constructor
  · exact (claim_C2_density.1 [[5], [5], [6]] 1 1 none 2 [0, 0, 1]
      (by decide) (by decide) (by decide) 1).mpr (by decide)
  · exact (claim_C2_density.2 2 [⟨[7, 8, 9, 10], 2, 2⟩] none
      (by decide) (by decide) 1).mp ⟨1, by decide, by decide, by decide⟩

/-- Counterexample for claim C3 as stated: in the unindexed buffer
`[A, B, A]` position 1 is referenced strictly before position 2 (scan slots 1
and 2 of `[0, 1, 2]`) and their records `B` and `A` differ, yet
`remap[1] = 1` is not less than `remap[2] = 0`, because position 2's record
class first appeared earlier (at position 0). -/
theorem claim_C3_counterexample :
    generate_vertex_sized_remap [[1], [2], [1]] 1 1 none = some (2, [0, 1, 0]) ∧
    refsOf none (vcountOf [[1], [2], [1]] 1 1) = [0, 1, 2] ∧
    getRecord [[1], [2], [1]].flatten 1 1 ≠ getRecord [[1], [2], [1]].flatten 1 2 ∧
    ¬ (([0, 1, 0] : List Nat).getD 1 0 < [0, 1, 0].getD 2 0) := by
  refine ⟨by rfl, by rfl, by decide, by decide⟩

/-- Amended claim C3: canonical indices are assigned in strictly increasing
order of first appearance of each distinct byte pattern — if the first scan
position at which `i`'s record appears strictly precedes the first scan
position at which `j`'s record appears (and the records differ), then
`remap[i] < remap[j]`. -/
theorem claim_C3_first_appearance
    (vertices : List (List Nat)) (es vs : Nat) (indices : Option (List Nat))
    (uc : Nat) (remap : List Nat) (i j : Nat)
    (hgen : generate_vertex_sized_remap vertices es vs indices = some (uc, remap))
    (hin : ∀ x ∈ refsOf indices (vcountOf vertices es vs),
      x < vcountOf vertices es vs)
    (hi : i ∈ refsOf indices (vcountOf vertices es vs))
    (hj : j ∈ refsOf indices (vcountOf vertices es vs))
    (hne : getRecord vertices.flatten vs i ≠ getRecord vertices.flatten vs j)
    (hord : idxOfR ((refsOf indices (vcountOf vertices es vs)).map
        (fun p => getRecord vertices.flatten vs p))
        (getRecord vertices.flatten vs i) <
      idxOfR ((refsOf indices (vcountOf vertices es vs)).map
        (fun p => getRecord vertices.flatten vs p))
        (getRecord vertices.flatten vs j)) :
    remap.getD i 0 < remap.getD j 0 := by
  obtain ⟨hdiv, huc, hremap⟩ := gen_sized_some hgen
  subst hremap
  have hin' : ∀ p ∈ refsOf indices (vcountOf vertices es vs),
      p < (singleRecs vertices vs (vcountOf vertices es vs)).length := by
    intro p hp
    rw [length_singleRecs]
    exact hin p hp
  have hmapeq : (refsOf indices (vcountOf vertices es vs)).map
      (recOf (singleRecs vertices vs (vcountOf vertices es vs))) =
      (refsOf indices (vcountOf vertices es vs)).map
      (fun p => getRecord vertices.flatten vs p) :=
    List.map_congr_left (fun p hp => recOf_singleRecs (hin p hp))
  refine gen_order hin' hi hj ?_
  rw [hmapeq, recOf_singleRecs (hin i hi), recOf_singleRecs (hin j hj)]
  exact hord

/-- Witness for the amended C3 on `[A, B, A]` unindexed: record `A` (first
appearing at scan slot 0) precedes record `B` (first appearing at slot 1),
so `remap[0] = 0 < remap[1] = 1`. -/
theorem claim_C3_first_appearance_witness :
    ([0, 1, 0] : List Nat).getD 0 0 < [0, 1, 0].getD 1 0 :=
  claim_C3_first_appearance [[1], [2], [1]] 1 1 none 2 [0, 1, 0] 0 1
    (by rfl) (by decide) (by decide) (by decide) (by decide) (by decide)

/-- Claim C6: `remap_vertex_buffer_sized` (and hence `remap_vertex_buffer`)
returns a fresh default-initialized buffer of exactly `unique_vertex_count`
records; for every old position `i` with a non-sentinel remap value the
`vertex_size`-byte record at `i` is copied to output position `remap[i]`;
sentinel positions contribute nothing; any output slot no input maps to
keeps its default-initialized contents. -/
theorem claim_C6_vertex_remap
    (vertices : List (List Nat)) (dflt : List Nat) (es vc vs : Nat)
    (remap : List Nat)
    (hes : es ≠ 0) (hdvd : es ∣ vs) (hdflt : dflt.length = es)
    (hsrc : remap.length * vs ≤ vertices.flatten.length)
    (hrange : ∀ i < remap.length,
      remap.getD i sentinel ≠ sentinel → remap.getD i sentinel < vc)
    (hcoh : ∀ i < remap.length, ∀ j < remap.length,
      remap.getD i sentinel = remap.getD j sentinel →
      remap.getD i sentinel ≠ sentinel →
      getRecord vertices.flatten vs i = getRecord vertices.flatten vs j) :
    ∃ out, remap_vertex_buffer_sized vertices dflt es vc vs remap = some out ∧
      out.length = vc * vs ∧
      (∀ i < remap.length, remap.getD i sentinel ≠ sentinel →
        getRecord out vs (remap.getD i sentinel) =
          getRecord vertices.flatten vs i) ∧
      (∀ j < vc, (∀ i < remap.length, remap.getD i sentinel ≠ j) →
        getRecord out vs j = (List.replicate (vs / es) dflt).flatten) := by
  have hk : vs / es * es = vs := Nat.div_mul_cancel hdvd
  have hdest : (List.replicate (vc * (vs / es)) dflt).flatten.length = vc * vs := by
    rw [flatten_replicate_length, hdflt, Nat.mul_assoc, hk]
  have hsrc' : ∀ i < remap.length, (i + 1) * vs ≤ vertices.flatten.length := by
    intro i hi
    exact Nat.le_trans (Nat.mul_le_mul_right vs hi) hsrc
  have hrange' : ∀ i < remap.length, remap.getD i sentinel ≠ sentinel →
      (remap.getD i sentinel + 1) * vs ≤
        (List.replicate (vc * (vs / es)) dflt).flatten.length := by
    intro i hi hs
    rw [hdest]
    exact Nat.mul_le_mul_right vs (hrange i hi hs)
  obtain ⟨hlen, hmiss, hhit⟩ := remapWriteAux_spec vertices.flatten vs remap
    (List.replicate (vc * (vs / es)) dflt).flatten hsrc' hrange' hcoh
    remap.length (Nat.le_refl _)
  refine ⟨meshopt_remapVertexBuffer
    (List.replicate (vc * (vs / es)) dflt).flatten vertices.flatten vs remap,
    ?_, ?_, ?_, ?_⟩
  · rw [remap_vertex_buffer_sized, if_neg hes]
  · rw [meshopt_remapVertexBuffer, hlen, hdest]
  · intro i hi hs
    rw [meshopt_remapVertexBuffer]
    exact hhit i hi hs
  · intro j hj hfree
    rw [meshopt_remapVertexBuffer, hmiss j hfree]
    have hjk : (j + 1) * (vs / es) ≤ vc * (vs / es) :=
      Nat.mul_le_mul_right (vs / es) hj
    have h := getRecord_flatten_replicate hdflt hjk
    rwa [hk] at h

/-- Witness for C6: two one-byte vertices `[5]`, `[6]` with table `[1, 0]`
swap into the two-slot output; slot lookups follow the table and the length
is `2`. -/
theorem claim_C6_vertex_remap_witness :
    ∃ out, remap_vertex_buffer_sized [[5], [6]] [9] 1 2 1 [1, 0] = some out ∧
      out.length = 2 * 1 ∧
      (∀ i < ([1, 0] : List Nat).length, [1, 0].getD i sentinel ≠ sentinel →
        getRecord out 1 ([1, 0].getD i sentinel) =
          getRecord [[5], [6]].flatten 1 i) ∧
      (∀ j < 2, (∀ i < ([1, 0] : List Nat).length, [1, 0].getD i sentinel ≠ j) →
        getRecord out 1 j = (List.replicate (1 / 1) [9]).flatten) :=
  claim_C6_vertex_remap [[5], [6]] [9] 1 2 1 [1, 0]
    (by decide) (by decide) (by decide) (by decide) (by decide) (by decide)

/-- Assembly of generator facts with the vertex-buffer remapper: for a remap
table produced by `generate_vertex_remap` on an indexed mesh, every
referenced position's record lands at its non-sentinel remap slot of the
remapped vertex buffer, and every slot below `unique_count` is the image of
some referenced position. -/
lemma gen_vb_spec (vertices : List (List Nat)) (dflt : List Nat) (es : Nat)
    (ib : List Nat) (uc : Nat) (remap : List Nat) (newV : List Nat)
    (helem : ∀ e ∈ vertices, e.length = es)
    (hdflt : dflt.length = es)
    (hin : ∀ x ∈ ib, x < vertices.length)
    (hsen : ib.length ≤ sentinel)
    (hgen : generate_vertex_remap vertices es (some ib) = some (uc, remap))
    (hvb : remap_vertex_buffer vertices dflt es uc remap = some newV) :
    (∀ p ∈ ib, p < remap.length ∧ remap.getD p 0 ≠ sentinel ∧
      getRecord newV es (remap.getD p 0) = getRecord vertices.flatten es p) ∧
    (∀ j < uc, ∃ p, p ∈ ib ∧ remap.getD p 0 = j) ∧
    (∀ w < vertices.length, w ∉ ib → remap.getD w 0 = sentinel) ∧
    uc = ((ib.map (fun p => getRecord vertices.flatten es p)).dedup).length := by
  obtain ⟨hdiv, huc, hremap⟩ := gen_sized_some hgen
  have hes : es ≠ 0 := by
    intro h
    apply hdiv
    rw [h]
  have hone : es / es = 1 := Nat.div_self (Nat.pos_of_ne_zero hes)
  have hvc : vcountOf vertices es es = vertices.length := by
    rw [vcountOf, hone, Nat.div_one]
  rw [hvc] at huc hremap
  subst huc
  subst hremap
  have hin' : ∀ p ∈ refsOf (some ib) vertices.length,
      p < (singleRecs vertices es vertices.length).length := by
    intro p hp
    rw [length_singleRecs]
    exact hin p hp
  have hflat : vertices.flatten.length = vertices.length * es :=
    flatten_length_uniform helem
  have hrlen : (genState (singleRecs vertices es vertices.length)
      (refsOf (some ib) vertices.length)).2.length = vertices.length := by
    rw [gen_len, length_singleRecs]
  have hnewV : newV = meshopt_remapVertexBuffer
      (List.replicate ((genState (singleRecs vertices es vertices.length)
        (refsOf (some ib) vertices.length)).1.length * (es / es)) dflt).flatten
      vertices.flatten es
      (genState (singleRecs vertices es vertices.length)
        (refsOf (some ib) vertices.length)).2 := by
    rw [remap_vertex_buffer, remap_vertex_buffer_sized, if_neg hes] at hvb
    exact (Option.some.inj hvb).symm
  have hdest : (List.replicate ((genState (singleRecs vertices es vertices.length)
      (refsOf (some ib) vertices.length)).1.length * (es / es)) dflt).flatten.length =
      (genState (singleRecs vertices es vertices.length)
        (refsOf (some ib) vertices.length)).1.length * es := by
    rw [flatten_replicate_length, hdflt, hone, Nat.mul_one]
  have hsrc' : ∀ i < (genState (singleRecs vertices es vertices.length)
      (refsOf (some ib) vertices.length)).2.length,
      (i + 1) * es ≤ vertices.flatten.length := by
    intro i hi
    rw [hrlen] at hi
    rw [hflat]
    exact Nat.mul_le_mul_right es hi
  have hrange' : ∀ i < (genState (singleRecs vertices es vertices.length)
      (refsOf (some ib) vertices.length)).2.length,
      (genState (singleRecs vertices es vertices.length)
        (refsOf (some ib) vertices.length)).2.getD i sentinel ≠ sentinel →
      ((genState (singleRecs vertices es vertices.length)
        (refsOf (some ib) vertices.length)).2.getD i sentinel + 1) * es ≤
      (List.replicate ((genState (singleRecs vertices es vertices.length)
        (refsOf (some ib) vertices.length)).1.length * (es / es)) dflt).flatten.length := by
    intro i hi hs
    have hgd : (genState (singleRecs vertices es vertices.length)
        (refsOf (some ib) vertices.length)).2.getD i sentinel =
        (genState (singleRecs vertices es vertices.length)
          (refsOf (some ib) vertices.length)).2.getD i 0 := getD_eq_getD hi
    rw [hdest, hgd]
    rw [hgd] at hs
    by_cases hif : i ∈ refsOf (some ib) vertices.length
    · exact Nat.mul_le_mul_right es (gen_lt_count hin' hif)
    · rw [gen_sentinel hin' (by rw [length_singleRecs, ← hrlen]; exact hi) hif] at hs
      exact absurd rfl hs
  have hcoh' : ∀ i < (genState (singleRecs vertices es vertices.length)
      (refsOf (some ib) vertices.length)).2.length,
      ∀ j < (genState (singleRecs vertices es vertices.length)
        (refsOf (some ib) vertices.length)).2.length,
      (genState (singleRecs vertices es vertices.length)
        (refsOf (some ib) vertices.length)).2.getD i sentinel =
        (genState (singleRecs vertices es vertices.length)
          (refsOf (some ib) vertices.length)).2.getD j sentinel →
      (genState (singleRecs vertices es vertices.length)
        (refsOf (some ib) vertices.length)).2.getD i sentinel ≠ sentinel →
      getRecord vertices.flatten es i = getRecord vertices.flatten es j := by
    intro i hi j hj heq hs
    have hgdi : (genState (singleRecs vertices es vertices.length)
        (refsOf (some ib) vertices.length)).2.getD i sentinel =
        (genState (singleRecs vertices es vertices.length)
          (refsOf (some ib) vertices.length)).2.getD i 0 := getD_eq_getD hi
    have hgdj : (genState (singleRecs vertices es vertices.length)
        (refsOf (some ib) vertices.length)).2.getD j sentinel =
        (genState (singleRecs vertices es vertices.length)
          (refsOf (some ib) vertices.length)).2.getD j 0 := getD_eq_getD hj
    rw [hgdi] at heq hs
    rw [hgdj] at heq
    have hiV : i < vertices.length := by
      rw [← hrlen]
      exact hi
    have hjV : j < vertices.length := by
      rw [← hrlen]
      exact hj
    have hif : i ∈ refsOf (some ib) vertices.length := by
      by_contra hc
      rw [gen_sentinel hin' (by rw [length_singleRecs]; exact hiV) hc] at hs
      exact hs rfl
    have hjf : j ∈ refsOf (some ib) vertices.length := by
      by_contra hc
      rw [gen_sentinel hin' (by rw [length_singleRecs]; exact hjV) hc] at heq
      exact hs heq
    have h := (gen_eq_iff hin' hif hjf).mp heq
    rwa [recOf_singleRecs hiV, recOf_singleRecs hjV] at h
  obtain ⟨hlen, hmiss, hhit⟩ := remapWriteAux_spec vertices.flatten es
    (genState (singleRecs vertices es vertices.length)
      (refsOf (some ib) vertices.length)).2
    (List.replicate ((genState (singleRecs vertices es vertices.length)
      (refsOf (some ib) vertices.length)).1.length * (es / es)) dflt).flatten
    hsrc' hrange' hcoh' _ (Nat.le_refl _)
  constructor
  · intro p hp
    have hpV : p < vertices.length := hin p hp
    have hpl : p < (genState (singleRecs vertices es vertices.length)
        (refsOf (some ib) vertices.length)).2.length := by
      rw [hrlen]
      exact hpV
    have hne : (genState (singleRecs vertices es vertices.length)
        (refsOf (some ib) vertices.length)).2.getD p 0 ≠ sentinel :=
      gen_ne_sentinel hin' hsen hp
    refine ⟨hpl, hne, ?_⟩
    have hgd : (genState (singleRecs vertices es vertices.length)
        (refsOf (some ib) vertices.length)).2.getD p sentinel =
        (genState (singleRecs vertices es vertices.length)
          (refsOf (some ib) vertices.length)).2.getD p 0 := getD_eq_getD hpl
    have h := hhit p hpl (by rw [hgd]; exact hne)
    rw [hgd] at h
    rw [hnewV, meshopt_remapVertexBuffer]
    exact h
  · refine ⟨?_, ?_, ?_⟩
    · intro j hj
      obtain ⟨p, hpf, hval⟩ := gen_surj hin' hj
      exact ⟨p, hpf, hval⟩
    · intro w hw hwref
      exact gen_sentinel hin' (by rw [length_singleRecs]; exact hw) hwref
    · have h := gen_count_eq_dedup hin'
      have hmapeq : List.map (recOf (singleRecs vertices es vertices.length))
          (refsOf (some ib) vertices.length) =
          List.map (fun p => getRecord vertices.flatten es p) ib :=
        List.map_congr_left (fun p hp => recOf_singleRecs (hin p hp))
      rwa [hmapeq] at h

/-- Claim C7 (round-trip): for an indexed mesh with in-range indices, with
`(unique_count, remap)` from the generator, remapping the index buffer and
the vertex buffer leaves every resolved vertex record unchanged:
`new_vertices[new_indices[k]] = vertices[indices[k]]` at every index-buffer
position `k`. -/
theorem claim_C7_roundtrip
    (vertices : List (List Nat)) (dflt : List Nat) (es : Nat) (ib : List Nat)
    (uc : Nat) (remap : List Nat) (newV : List Nat)
    (helem : ∀ e ∈ vertices, e.length = es)
    (hdflt : dflt.length = es)
    (hin : ∀ x ∈ ib, x < vertices.length)
    (hsen : ib.length ≤ sentinel)
    (hgen : generate_vertex_remap vertices es (some ib) = some (uc, remap))
    (hvb : remap_vertex_buffer vertices dflt es uc remap = some newV) :
    ∀ k < ib.length,
      getRecord newV es
        ((remap_index_buffer (some ib) vertices.length remap).getD k 0) =
      getRecord vertices.flatten es (ib.getD k 0) := by
  intro k hk
  obtain ⟨hall, -, -, -⟩ :=
    gen_vb_spec vertices dflt es ib uc remap newV helem hdflt hin hsen hgen hvb
  have hp : ib.getD k 0 ∈ ib := getD_mem_nat hk
  obtain ⟨hpl, hpne, hrec⟩ := hall (ib.getD k 0) hp
  have hidx : (remap_index_buffer (some ib) vertices.length remap).getD k 0 =
      remap.getD (ib.getD k 0) 0 := by
    rw [remap_index_buffer, meshopt_remapIndexBuffer,
      @getD_map_lt ib (fun j => remap.getD j 0) k 0 0 hk]
  rw [hidx]
  exact hrec

/-- Witness for C7 on the spec scenario `[A, B, A, C]`,
indices `[0, 1, 2, 0, 3, 2]`: at index position 4 the remapped mesh resolves
to the same record `C` as the original. -/
theorem claim_C7_roundtrip_witness :
    getRecord [1, 2, 3] 1
      ((remap_index_buffer (some [0, 1, 2, 0, 3, 2]) 4 [0, 1, 0, 2]).getD 4 0) =
    getRecord [[1], [2], [1], [3]].flatten 1 ([0, 1, 2, 0, 3, 2].getD 4 0) :=
  claim_C7_roundtrip [[1], [2], [1], [3]] [0] 1 [0, 1, 2, 0, 3, 2] 3 [0, 1, 0, 2]
    [1, 2, 3] (by decide) (by decide) (by decide) (by decide) (by rfl) (by rfl)
    4 (by decide)

/-- Counterexample for claim C4 as stated: in the buffer `[A, A]` with index
buffer `[0]`, position 1 is unreferenced and receives the sentinel, yet its
record (equal to referenced position 0's record) does occur in the output of
`remap_vertex_buffer` — so "its record does not occur anywhere in the
output" fails when a referenced twin has identical bytes. -/
theorem claim_C4_counterexample :
    generate_vertex_remap [[1], [1]] 1 (some [0]) = some (1, [0, sentinel]) ∧
    (1 : Nat) < vcountOf [[1], [1]] 1 1 ∧
    (1 : Nat) ∉ ([0] : List Nat) ∧
    remap_vertex_buffer [[1], [1]] [0] 1 1 [0, sentinel] = some [1] ∧
    getRecord [1] 1 0 = getRecord [[1], [1]].flatten 1 1 := by
  refine ⟨by decide, by decide, by decide, by decide, by decide⟩

/-- Amended claim C4: an unreferenced vertex-buffer position is assigned the
sentinel, is not counted in `unique_count` (which equals the number of
distinct records among the referenced positions), and — provided no
referenced position carries an identical record — its record does not occur
anywhere in the output of `remap_vertex_buffer`. -/
theorem claim_C4_unreferenced_drop
    (vertices : List (List Nat)) (dflt : List Nat) (es : Nat) (ib : List Nat)
    (uc : Nat) (remap : List Nat) (newV : List Nat) (v : Nat)
    (helem : ∀ e ∈ vertices, e.length = es)
    (hdflt : dflt.length = es)
    (hin : ∀ x ∈ ib, x < vertices.length)
    (hsen : ib.length ≤ sentinel)
    (hgen : generate_vertex_remap vertices es (some ib) = some (uc, remap))
    (hvb : remap_vertex_buffer vertices dflt es uc remap = some newV)
    (hv : v < vertices.length) (hvref : v ∉ ib) :
    remap.getD v 0 = sentinel ∧
    uc = ((ib.map (fun p => getRecord vertices.flatten es p)).dedup).length ∧
    ((∀ w ∈ ib, getRecord vertices.flatten es w ≠ getRecord vertices.flatten es v) →
      ∀ j < uc, getRecord newV es j ≠ getRecord vertices.flatten es v) := by
  obtain ⟨hall, hsurj, hsent, hcount⟩ :=
    gen_vb_spec vertices dflt es ib uc remap newV helem hdflt hin hsen hgen hvb
  refine ⟨hsent v hv hvref, hcount, ?_⟩
  intro hnotwin j hj
  obtain ⟨p, hpf, hval⟩ := hsurj j hj
  obtain ⟨hpl, hpne, hrec⟩ := hall p hpf
  rw [← hval, hrec]
  exact hnotwin p hpf

/-- Witness for the amended C4: buffer `[A, B]` with index buffer `[0]` —
position 1 gets the sentinel, `unique_count = 1` counts only the referenced
record, and record `B` is absent from the remapped buffer `[A]`. -/
theorem claim_C4_unreferenced_drop_witness :
    ([0, sentinel] : List Nat).getD 1 0 = sentinel ∧
    1 = ((([0] : List Nat).map
      (fun p => getRecord [[1], [2]].flatten 1 p)).dedup).length ∧
    ((∀ w ∈ ([0] : List Nat), getRecord [[1], [2]].flatten 1 w ≠
        getRecord [[1], [2]].flatten 1 1) →
      ∀ j < 1, getRecord [1] 1 j ≠ getRecord [[1], [2]].flatten 1 1) :=
  claim_C4_unreferenced_drop [[1], [2]] [0] 1 [0] 1 [0, sentinel] [1] 1
    (by decide) (by decide) (by decide) (by decide) (by decide) (by decide)
    (by decide) (by decide)

/-- Two runs of the copy loop over the same source and remap table but
different destination buffers perform the same writes: every slot some
processed position maps to ends up with the same record in both runs. -/
lemma remapWriteAux_congr (src : List Nat) (vs : Nat) (remap : List Nat)
    (destA destB : List Nat)
    (hsrc : ∀ i < remap.length, (i + 1) * vs ≤ src.length)
    (hrangeA : ∀ i < remap.length, remap.getD i sentinel ≠ sentinel →
      (remap.getD i sentinel + 1) * vs ≤ destA.length)
    (hrangeB : ∀ i < remap.length, remap.getD i sentinel ≠ sentinel →
      (remap.getD i sentinel + 1) * vs ≤ destB.length) :
    ∀ n, n ≤ remap.length →
      (remapWriteAux src vs remap n destA).length = destA.length ∧
      (remapWriteAux src vs remap n destB).length = destB.length ∧
      (∀ j, (∃ i, i < n ∧ remap.getD i sentinel = j ∧
          remap.getD i sentinel ≠ sentinel) →
        getRecord (remapWriteAux src vs remap n destA) vs j =
          getRecord (remapWriteAux src vs remap n destB) vs j) := by
  intro n
  induction n with
  | zero =>
    intro _
    exact ⟨rfl, rfl, fun j hj => absurd hj.choose_spec.1 (Nat.not_lt_zero _)⟩
  | succ n ih =>
    intro hn
    have hn' : n ≤ remap.length := Nat.le_of_succ_le hn
    have hnlt : n < remap.length := hn
    obtain ⟨ihA, ihB, ihsame⟩ := ih hn'
    by_cases hs : remap.getD n sentinel ≠ sentinel
    · have hreclen : (getRecord src vs n).length = vs :=
        getRecord_length (hsrc n hnlt)
      have hboundA : (remap.getD n sentinel + 1) * vs ≤
          (remapWriteAux src vs remap n destA).length := by
        rw [ihA]
        exact hrangeA n hnlt hs
      have hboundB : (remap.getD n sentinel + 1) * vs ≤
          (remapWriteAux src vs remap n destB).length := by
        rw [ihB]
        exact hrangeB n hnlt hs
      have hstepA : remapWriteAux src vs remap (n + 1) destA =
          writeRecord (remapWriteAux src vs remap n destA) vs
            (remap.getD n sentinel) (getRecord src vs n) := by
        show (if remap.getD n sentinel ≠ sentinel then
          writeRecord (remapWriteAux src vs remap n destA) vs
            (remap.getD n sentinel) (getRecord src vs n)
          else remapWriteAux src vs remap n destA) = _
        rw [if_pos hs]
      have hstepB : remapWriteAux src vs remap (n + 1) destB =
          writeRecord (remapWriteAux src vs remap n destB) vs
            (remap.getD n sentinel) (getRecord src vs n) := by
        show (if remap.getD n sentinel ≠ sentinel then
          writeRecord (remapWriteAux src vs remap n destB) vs
            (remap.getD n sentinel) (getRecord src vs n)
          else remapWriteAux src vs remap n destB) = _
        rw [if_pos hs]
      refine ⟨?_, ?_, ?_⟩
      · rw [hstepA, length_writeRecord hreclen hboundA, ihA]
      · rw [hstepB, length_writeRecord hreclen hboundB, ihB]
      · rintro j ⟨i, hi, hval, hvs'⟩
        by_cases hjn : remap.getD n sentinel = j
        · rw [hstepA, hstepB, ← hjn,
            getRecord_writeRecord_self hreclen hboundA,
            getRecord_writeRecord_self hreclen hboundB]
        · have hine : i ≠ n := fun h => hjn (h ▸ hval)
          have hi' : i < n := by
            rcases Nat.lt_succ_iff_lt_or_eq.mp hi with h | h
            · exact h
            · exact absurd h hine
          rw [hstepA, hstepB,
            getRecord_writeRecord_ne hreclen hboundA (fun h => hjn h.symm),
            getRecord_writeRecord_ne hreclen hboundB (fun h => hjn h.symm)]
          exact ihsame j ⟨i, hi', hval, hvs'⟩
    · push_neg at hs
      have hstepA : remapWriteAux src vs remap (n + 1) destA =
          remapWriteAux src vs remap n destA := by
        show (if remap.getD n sentinel ≠ sentinel then
          writeRecord (remapWriteAux src vs remap n destA) vs
            (remap.getD n sentinel) (getRecord src vs n)
          else remapWriteAux src vs remap n destA) = _
        rw [if_neg (fun hcon => hcon hs)]
      have hstepB : remapWriteAux src vs remap (n + 1) destB =
          remapWriteAux src vs remap n destB := by
        show (if remap.getD n sentinel ≠ sentinel then
          writeRecord (remapWriteAux src vs remap n destB) vs
            (remap.getD n sentinel) (getRecord src vs n)
          else remapWriteAux src vs remap n destB) = _
        rw [if_neg (fun hcon => hcon hs)]
      refine ⟨hstepA ▸ ihA, hstepB ▸ ihB, ?_⟩
      rintro j ⟨i, hi, hval, hvs'⟩
      have hine : i ≠ n := fun h => hvs' (h ▸ hs)
      have hi' : i < n := by
        rcases Nat.lt_succ_iff_lt_or_eq.mp hi with h | h
        · exact h
        · exact absurd h hine
      rw [hstepA, hstepB]
      exact ihsame j ⟨i, hi', hval, hvs'⟩

/-- Claim C8: for a well-formed dense remap table, the in-place vertex
remap (which writes through the source buffer's own storage, the copy
reading from a snapshot per the spec) leaves the first
`unique_vertex_count` records of the buffer equal to the out-of-place
result on the original contents. -/
theorem claim_C8_in_place
    (vertices : List (List Nat)) (dflt : List Nat) (es vc vs : Nat)
    (remap : List Nat) (out : List Nat)
    (hes : es ≠ 0) (hdvd : es ∣ vs) (hvs : 0 < vs) (hdflt : dflt.length = es)
    (hsrc : remap.length * vs ≤ vertices.flatten.length)
    (hbuf : vc * vs ≤ vertices.flatten.length)
    (hsen : vc ≤ sentinel)
    (hrange : ∀ i < remap.length, remap.getD i sentinel ≠ sentinel →
      remap.getD i sentinel < vc)
    (hdense : ∀ j < vc, ∃ i, i < remap.length ∧ remap.getD i sentinel = j)
    (hout : remap_vertex_buffer_sized vertices dflt es vc vs remap = some out) :
    (remap_vertex_buffer_sized_in_place vertices es vc vs remap).take (vc * vs)
      = out := by
  have hk : vs / es * es = vs := Nat.div_mul_cancel hdvd
  have hdest : (List.replicate (vc * (vs / es)) dflt).flatten.length = vc * vs := by
    rw [flatten_replicate_length, hdflt, Nat.mul_assoc, hk]
  have hout' : out = meshopt_remapVertexBuffer
      (List.replicate (vc * (vs / es)) dflt).flatten vertices.flatten vs remap := by
    rw [remap_vertex_buffer_sized, if_neg hes] at hout
    exact (Option.some.inj hout).symm
  have hsrc' : ∀ i < remap.length, (i + 1) * vs ≤ vertices.flatten.length := by
    intro i hi
    exact Nat.le_trans (Nat.mul_le_mul_right vs hi) hsrc
  have hrangeA : ∀ i < remap.length, remap.getD i sentinel ≠ sentinel →
      (remap.getD i sentinel + 1) * vs ≤ vertices.flatten.length := by
    intro i hi hs
    exact Nat.le_trans (Nat.mul_le_mul_right vs (hrange i hi hs)) hbuf
  have hrangeB : ∀ i < remap.length, remap.getD i sentinel ≠ sentinel →
      (remap.getD i sentinel + 1) * vs ≤
        (List.replicate (vc * (vs / es)) dflt).flatten.length := by
    intro i hi hs
    rw [hdest]
    exact Nat.mul_le_mul_right vs (hrange i hi hs)
  obtain ⟨hlenA, hlenB, hsame⟩ := remapWriteAux_congr vertices.flatten vs remap
    vertices.flatten (List.replicate (vc * (vs / es)) dflt).flatten
    hsrc' hrangeA hrangeB remap.length (Nat.le_refl _)
  rw [hout']
  have h1 : ((remapWriteAux vertices.flatten vs remap remap.length
      vertices.flatten).take (vc * vs)).length = vc * vs := by
    rw [List.length_take, hlenA]
    exact Nat.min_eq_left hbuf
  have h2 : (remapWriteAux vertices.flatten vs remap remap.length
      (List.replicate (vc * (vs / es)) dflt).flatten).length = vc * vs := by
    rw [hlenB, hdest]
  refine eq_of_getRecord_eq hvs h1 h2 ?_
  intro j hj
  obtain ⟨i, hi, hval⟩ := hdense j hj
  have hvs' : remap.getD i sentinel ≠ sentinel := by
    rw [hval]
    exact Nat.ne_of_lt (Nat.lt_of_lt_of_le hj hsen)
  rw [getRecord_take hj]
  exact hsame j ⟨i, hi, hval, hvs'⟩

/-- Witness for C8 on `[A, B, A, C]` with table `[0, 1, 0, 2]` and
`unique_vertex_count = 3`: the in-place buffer's first three records equal
the out-of-place result `[A, B, C]`. -/
theorem claim_C8_in_place_witness :
    (remap_vertex_buffer_sized_in_place [[1], [2], [1], [3]] 1 3 1
      [0, 1, 0, 2]).take (3 * 1) = [1, 2, 3] :=
  claim_C8_in_place [[1], [2], [1], [3]] [0] 1 3 1 [0, 1, 0, 2] [1, 2, 3]
    (by decide) (by decide) (by decide) (by decide) (by decide) (by decide)
    (by decide) (by decide) (by decide) (by decide)
